import Mathlib

/-!
# Verification of the imguri encoding pipeline

Shallow embedding of the imguri library (data-URI encoder for local files and
remote HTTP resources).  The definitions below are translated from the
repository sources:

* `toDataUri`            — `src/core/encoder.js`
* `base64Encode`         — models Node `Buffer.prototype.toString('base64')`
  (standard alphabet, padding, no wrapping), the encoding primitive the
  encoder delegates to
* `normalize`            — models Node `path.normalize` (posix), the external
  primitive `validatePath` calls
* `validatePath`         — the main module's path-security check
* `validateSize`, `validateImageContentType` — `src/validators/input-validator.js`
  (the main module inlines the identical conditions)
* `encodeLocalFile`, `encodeRemoteUrl`, `encodeSingle`, `encode`
  — the main module's pipeline and batch orchestrator
* `fetchedContentType`   — the `content-type` fallback of `fetchBuffer` in
  `src/adapters/http-client.js`

I/O collaborators (file system, HTTP transport) are passed as explicit
environments (`FileSystem`, `RemoteEnv`, `World`), and machine integers are
`Nat` (byte counts are non-negative; no overflow is possible at these sizes).
Buffers are `List Nat` with bytes read modulo 256, matching Node `Buffer`
semantics.
-/

namespace Imguri

set_option autoImplicit false

/-! ## Error taxonomy

Structured counterpart of the `Error` messages thrown by the source.  Each
constructor carries exactly the data the corresponding message interpolates:
`sizeLimitExceeded` carries the observed size and the limit
(`Size limit exceeded: ${size} > ${sizeLimit} bytes...`), `notAnImage` the
declared content type and the URL, `pathSecurityViolation` the offending
input path (both the traversal branch and the cwd-escape branch of
`validatePath` interpolate the original path). -/
inductive EncodeError where
  | pathSecurityViolation (path : String)
  | notFound (path : String)
  | sizeLimitExceeded (size limit : Nat)
  | unknownMediaType (path : String)
  | notAnImage (contentType url : String)
  | remoteError (status : Nat) (statusText : String)
  | timeout
  | invalidArgument (msg : String)
deriving DecidableEq

/-! ## Configuration (`src/config.js`) -/

def DEFAULT_SIZE_LIMIT : Nat := 131072
def DEFAULT_TIMEOUT : Nat := 20000
def DEFAULT_CONCURRENCY : Nat := 10

/-- Options record (`EncodeOptions`).  `timeout` is threaded for fidelity but
plays no role in the pure embedding. -/
structure Options where
  force : Bool
  sizeLimit : Nat
  timeout : Nat
  concurrency : Nat
deriving DecidableEq

def defaultOptions : Options :=
  { force := false, sizeLimit := DEFAULT_SIZE_LIMIT,
    timeout := DEFAULT_TIMEOUT, concurrency := DEFAULT_CONCURRENCY }

/-! ## Base64 and the encoder (`src/core/encoder.js`) -/

/-- The standard base64 alphabet (RFC 4648), as used by Node
`Buffer.toString('base64')`: no URL-safe variant. -/
def b64Alphabet : List Char :=
  "ABCDEFGHIJKLMNOPQRSTUVWXYZabcdefghijklmnopqrstuvwxyz0123456789+/".data

def b64Char (n : Nat) : Char := b64Alphabet.getD n 'A'

/-- Groups of three bytes become four alphabet characters; a trailing group of
two or one byte is padded with `=`.  Bytes are taken modulo 256 (Node buffers
store octets). -/
def b64Chars : List Nat → List Char
  | b1 :: b2 :: b3 :: rest =>
    b64Char (b1 % 256 / 4) ::
    b64Char (b1 % 4 * 16 + b2 % 256 / 16) ::
    b64Char (b2 % 16 * 4 + b3 % 256 / 64) ::
    b64Char (b3 % 64) :: b64Chars rest
  | [b1, b2] =>
    [b64Char (b1 % 256 / 4), b64Char (b1 % 4 * 16 + b2 % 256 / 16),
     b64Char (b2 % 16 * 4), '=']
  | [b1] =>
    [b64Char (b1 % 256 / 4), b64Char (b1 % 4 * 16), '=', '=']
  | [] => []

/-- Models `buffer.toString('base64')`: standard alphabet, padded, unwrapped. -/
def base64Encode (buffer : List Nat) : String := ⟨b64Chars buffer⟩

/-- `toDataUri` from `src/core/encoder.js`.  The `Buffer.isBuffer` check is
enforced by the Lean type of `buffer`; the `!mimeType || typeof mimeType !==
'string'` check reduces to rejecting the empty string. -/
def toDataUri (buffer : List Nat) (mimeType : String) : Except EncodeError String :=
  if mimeType = "" then
    .error (.invalidArgument "Expected mimeType to be a non-empty string")
  else
    .ok ("data:" ++ mimeType ++ ";base64," ++ base64Encode buffer)

/-- The UTF-8 bytes of the string `'test'`, i.e. `Buffer.from('test')` from the
encoder test suite. -/
def testBuffer : List Nat := [0x74, 0x65, 0x73, 0x74]

/-! ## Path normalization (models Node `path.normalize`, posix rules)

`validatePath` calls `normalize` from the Node `path` module, an external
collaborator.  The model resolves `.` and `..` segments lexically, collapses
separators, keeps leading `..` segments of relative paths, drops `..` above
the root of absolute paths, and preserves a trailing separator — the
documented posix behaviour. -/

/-- Split a character list at `/` separators (keeping empty segments, like
`String.prototype.split('/')`). -/
def splitSlash : List Char → List (List Char)
  | [] => [[]]
  | c :: cs =>
    if c = '/' then [] :: splitSlash cs
    else (c :: (splitSlash cs).headD []) :: (splitSlash cs).tail

/-- Lexical resolution of `.` and `..` segments (the stack loop of Node's
`normalizeString`): empty and `.` segments are dropped; `..` pops the previous
segment, accumulates at the front of a relative path, and is discarded above
the root of an absolute path. -/
def normSegsFold (absolute : Bool) (segs : List (List Char)) : List (List Char) :=
  segs.foldl
    (fun acc seg =>
      if seg = [] ∨ seg = ['.'] then acc
      else if seg = ['.', '.'] then
        match acc.getLast? with
        | some lastSeg =>
          if lastSeg = ['.', '.'] then acc ++ [seg] else acc.dropLast
        | none => if absolute then acc else [seg]
      else acc ++ [seg])
    []

def joinSlash : List (List Char) → List Char
  | [] => []
  | [s] => s
  | s :: rest => s ++ '/' :: joinSlash rest

/-- Reassemble a normalized path from its resolved body: an empty body yields
`/`, `./` or `.`; otherwise the root prefix and trailing separator are
restored. -/
def normAssemble (absolute trailingSep : Bool) (body : List Char) : List Char :=
  if body = [] then
    (if absolute then ['/'] else if trailingSep then ['.', '/'] else ['.'])
  else
    (if absolute then '/' :: body else body) ++ (if trailingSep then ['/'] else [])

def normalizeChars (cs : List Char) : List Char :=
  if cs = [] then ['.']
  else
    normAssemble (cs.head? == some '/') (cs.getLast? == some '/')
      (joinSlash (normSegsFold (cs.head? == some '/') (splitSlash cs)))

/-- Models Node `path.normalize` (posix). -/
def normalize (p : String) : String := ⟨normalizeChars p.data⟩

/-- `normalized.includes('..')` — the substring test used by `validatePath`. -/
def ddChars : List Char → Bool
  | [] => false
  | [_] => false
  | a :: b :: rest => (a == '.' && b == '.') || ddChars (b :: rest)

def containsDD (s : String) : Bool := ddChars s.data

/-- A parent-directory *segment* `..` of the path (as opposed to the mere
substring `..` inside a longer file name).  Used to state the spec's
traversal property. -/
def hasParentSeg (s : String) : Bool :=
  (splitSlash s.data).any (fun seg => seg == ['.', '.'])

/-- `normalized.startsWith('/')`. -/
def isAbsoluteStr (s : String) : Bool :=
  match s.data with
  | '/' :: _ => true
  | _ => false

/-- `normalized.match(/^[A-Za-z]:\\/)` — Windows drive-absolute prefix. -/
def isDriveAbs (s : String) : Bool :=
  match s.data with
  | a :: ':' :: '\\' :: _ =>
    ('A' ≤ a && a ≤ 'Z') || ('a' ≤ a && a ≤ 'z')
  | _ => false

/-- Models Node `path.resolve(normalized)` for the relative paths the source
passes it: the path is joined onto the current working directory and
normalized. -/
def resolveFrom (cwd p : String) : String := normalize (cwd ++ "/" ++ p)

/-- `resolved.startsWith(process.cwd())`. -/
def strStartsWith (s pre : String) : Bool := s.data.take pre.data.length == pre.data

/-- `validatePath` from the main module: normalize, reject any normalized form
containing the substring `..`, and require relative paths to stay inside the
working directory after resolution.  Both failure branches throw an error
interpolating the original path; the spec taxonomy names both
`PathSecurityViolation`. -/
def validatePath (cwd filePath : String) : Except EncodeError String :=
  let normalized := normalize filePath
  if containsDD normalized then .error (.pathSecurityViolation filePath)
  else if !isAbsoluteStr normalized && !isDriveAbs normalized then
    if !strStartsWith (resolveFrom cwd normalized) cwd then
      .error (.pathSecurityViolation filePath)
    else .ok normalized
  else .ok normalized

/-! ## Collaborator environments (§6 of the spec)

The file-system and HTTP collaborators are consumed through narrow
interfaces; here they are explicit records so that every pipeline is a pure
function of its environment. -/

/-- File Access collaborator: `fileExists`, `getFileSize`, `getMimeType`
(`lookup(filePath) || null`), and `readFileBuffer` from
`src/adapters/file-reader.js`, as one record of oracles. -/
structure FileSystem where
  fileExists : String → Bool
  size : String → Nat
  mime : String → Option String
  read : String → List Nat

/-- Result of `fetchMetadata` (HEAD probe): `contentType` is the declared
header defaulted to `''` when absent, `contentLength` is
`parseInt(header || '0', 10)` with absent/unparseable treated as 0. -/
structure ProbeMeta where
  contentType : String
  contentLength : Nat
deriving DecidableEq

/-- Result of the GET in `fetchBuffer`, before the content-type fallback is
applied: the raw optional `content-type` header and the downloaded body. -/
structure FetchResp where
  contentTypeHeader : Option String
  body : List Nat
deriving DecidableEq

/-- `contentType = response.headers.get('content-type') ||
'application/octet-stream'` in `fetchBuffer`: an absent (or empty, hence
falsy) header falls back to the generic binary type. -/
def fetchedContentType : Option String → String
  | none => "application/octet-stream"
  | some s => if s = "" then "application/octet-stream" else s

/-- HTTP collaborator for one URL: the outcome of the HEAD probe and of the
GET fetch (each may fail with `remoteError`/`timeout`). -/
structure RemoteEnv where
  probe : Except EncodeError ProbeMeta
  fetch : Except EncodeError FetchResp

/-! ## Validators (`src/validators/input-validator.js`)

The main module inlines conditions identical to these shared validators;
using the named forms makes the size gate manifestly the same at all three
sites. -/

/-- `validateSize`: `if (!force && size > limit) throw SizeLimitExceeded`,
carrying both the observed size and the limit. -/
def validateSize (size limit : Nat) (force : Bool) : Except EncodeError Unit :=
  if !force && decide (size > limit) then
    .error (.sizeLimitExceeded size limit)
  else .ok ()

/-- `/^image\//i.test(contentType)` — case-insensitive test that the declared
content type begins with `image/`. -/
def isImage (contentType : String) : Bool :=
  (contentType.data.take 6).map Char.toLower == "image/".data

/-- `validateImageContentType`: fail `NotAnImage` naming the declared type and
the URL unless the type passes `isImage`. -/
def validateImageContentType (contentType url : String) : Except EncodeError Unit :=
  if !isImage contentType then .error (.notAnImage contentType url)
  else .ok ()

/-- `/^https?:\/\//i.test(path)` — remote iff the input has a case-insensitive
`http://` or `https://` scheme. -/
def isUrl (path : String) : Bool :=
  (path.data.take 7).map Char.toLower == "http://".data ||
  (path.data.take 8).map Char.toLower == "https://".data

/-! ## Local and remote resolvers (main module) -/

/-- `encodeLocalFile`: validate path, existence gate, size gate, media-type
lookup (`!mimeType` also rejects the empty string), full read, encode. -/
def encodeLocalFile (fs : FileSystem) (cwd : String) (opts : Options)
    (filePath : String) : Except EncodeError String :=
  match validatePath cwd filePath with
  | .error e => .error e
  | .ok safePath =>
    if !fs.fileExists safePath then .error (.notFound filePath)
    else
      match validateSize (fs.size safePath) opts.sizeLimit opts.force with
      | .error e => .error e
      | .ok _ =>
        match fs.mime safePath with
        | none => .error (.unknownMediaType filePath)
        | some mimeType =>
          if mimeType = "" then .error (.unknownMediaType filePath)
          else toDataUri (fs.read safePath) mimeType

/-- `encodeRemoteUrl`, instrumented with a Boolean recording whether the full
GET fetch was issued: HEAD probe, `image/*` gate, declared-length gate (only
when the declared length is known, i.e. `contentLength > 0`), GET fetch,
actual-length gate, encode with the re-derived content type. -/
def encodeRemoteUrlT (env : RemoteEnv) (opts : Options) (url : String) :
    Except EncodeError String × Bool :=
  match env.probe with
  | .error e => (.error e, false)
  | .ok meta =>
    match validateImageContentType meta.contentType url with
    | .error e => (.error e, false)
    | .ok _ =>
      match
        (if meta.contentLength > 0 then
          validateSize meta.contentLength opts.sizeLimit opts.force
         else .ok ()) with
      | .error e => (.error e, false)
      | .ok _ =>
        match env.fetch with
        | .error e => (.error e, true)
        | .ok resp =>
          match validateSize resp.body.length opts.sizeLimit opts.force with
          | .error e => (.error e, true)
          | .ok _ =>
            (toDataUri resp.body (fetchedContentType resp.contentTypeHeader), true)

def encodeRemoteUrl (env : RemoteEnv) (opts : Options) (url : String) :
    Except EncodeError String :=
  (encodeRemoteUrlT env opts url).1

/-- The per-input world: file system, working directory, and an HTTP
environment for every URL. -/
structure World where
  fs : FileSystem
  cwd : String
  remote : String → RemoteEnv

/-- `encodeSingle`: classify and dispatch. -/
def encodeSingle (w : World) (opts : Options) (path : String) :
    Except EncodeError String :=
  if isUrl path then encodeRemoteUrl (w.remote path) opts path
  else encodeLocalFile w.fs w.cwd opts path

/-! ## Batch orchestrator -/

/-- One slot of the result `Map`: `{ data, error }` with exactly one of the
two populated. -/
structure Entry where
  data : Option String
  error : Option EncodeError
deriving DecidableEq

/-- `results.set(path, { data, error: null })` on success and
`results.set(path, { data: null, error })` on failure. -/
def mkEntry : Except EncodeError String → Entry
  | .ok d => ⟨some d, none⟩
  | .error e => ⟨none, some e⟩

def dedupGo (acc : List String) : List String → List String
  | [] => acc
  | p :: ps => dedupGo (if p ∈ acc then acc else acc ++ [p]) ps

/-- `[...new Set(pathArray)]` — deduplicate by exact string equality keeping
first-occurrence order. -/
def dedup (paths : List String) : List String := dedupGo [] paths

/-- The consecutive groups `uniquePaths.slice(i, i + concurrency)` of the
source's chunking loop.  The loop terminates only for `concurrency ≥ 1`;
the `c = 0` branch here is never the image of a source behaviour (with
`concurrency ≤ 0` the source loop never exits — see `chunkIndex`). -/
def chunkBy (c : Nat) (l : List String) : List (List String) :=
  if h : c = 0 ∨ l = [] then []
  else l.take c :: chunkBy c (l.drop c)
termination_by l.length
decreasing_by
  push_neg at h
  simp only [List.length_drop]
  have hl : 0 < l.length := List.length_pos.mpr h.2
  omega

/-- The loop index of `for (let i = 0; i < uniquePaths.length; i +=
concurrency)` after `k` iterations.  The source performs no validation or
normalization of `concurrency`; for non-positive values the guard never
becomes false (see `concurrency_zero_loop_never_exits`). -/
def chunkIndex (c : Int) : Nat → Int
  | 0 => 0
  | k + 1 => chunkIndex c k + c

/-- `encode`: deduplicate, process in concurrency-bounded groups, record one
entry per distinct input.  The result is the content of the `Map`, keyed in
first-occurrence order. -/
def encode (w : World) (opts : Options) (paths : List String) :
    List (String × Entry) :=
  (chunkBy opts.concurrency (dedup paths)).flatten.map
    (fun p => (p, mkEntry (encodeSingle w opts p)))

/-! ## Concrete environments used to instantiate the theorems -/

/-- A file system with two readable files; `big.png` is 100 bytes, everything
else 10 bytes; every path has media type `image/png` and content bytes
`01 02 03`. -/
def fsW : FileSystem :=
  { fileExists := fun s => s == "ok.png" || s == "big.png",
    size := fun s => if s == "big.png" then 100 else 10,
    mime := fun _ => some "image/png",
    read := fun _ => [1, 2, 3] }

/-- An HTTP environment whose every request fails (no remote inputs are
exercised through it). -/
def remoteFail : RemoteEnv :=
  ⟨.error (.remoteError 404 "Not Found"), .error (.remoteError 404 "Not Found")⟩

def Wc : World := ⟨fsW, "/home/user", fun _ => remoteFail⟩

def optsSmall : Options := ⟨false, 50, 20000, 10⟩

def optsTiny : Options := ⟨false, 3, 20000, 10⟩

/-- Probe declares `image/png` with a declared length of 100 bytes. -/
def envPre : RemoteEnv :=
  ⟨.ok ⟨"image/png", 100⟩, .ok ⟨some "image/png", [1, 2, 3, 4, 5]⟩⟩

/-- Probe declares `image/png` but omits `content-length` (treated as 0); the
actual downloaded body is 5 bytes. -/
def envPost : RemoteEnv :=
  ⟨.ok ⟨"image/png", 0⟩, .ok ⟨some "image/png", [1, 2, 3, 4, 5]⟩⟩

/-- Probe declares `text/html`. -/
def envHtml : RemoteEnv :=
  ⟨.ok ⟨"text/html", 123⟩, .ok ⟨some "text/html", []⟩⟩

/-- Probe declares `image/png`; the GET response carries no `content-type`
header. -/
def envNoCT : RemoteEnv :=
  ⟨.ok ⟨"image/png", 0⟩, .ok ⟨none, [1, 2, 3]⟩⟩

/-! ## Helper lemmas -/

theorem ddChars_cons (c : Char) (cs : List Char) (h : ddChars cs = true) :
    ddChars (c :: cs) = true := by
  cases cs with
  | nil => exact absurd h (by simp [ddChars])
  | cons b rest =>
    show ((c == '.') && (b == '.') || ddChars (b :: rest)) = true
    simp [h]

theorem splitSlash_head (cs : List Char) :
    ∃ h t rest, splitSlash cs = h :: t ∧ cs = h ++ rest := by
  induction cs with
  | nil => exact ⟨[], [], [], rfl, rfl⟩
  | cons c cs ih =>
    obtain ⟨h, t, rest, hs, hc⟩ := ih
    by_cases hcs : c = '/'
    · subst hcs
      exact ⟨[], splitSlash cs, '/' :: cs, by simp [splitSlash], rfl⟩
    · refine ⟨c :: h, t, rest, ?_, by simp [hc]⟩
      show (if c = '/' then [] :: splitSlash cs
            else (c :: (splitSlash cs).headD []) :: (splitSlash cs).tail) = (c :: h) :: t
      rw [if_neg hcs, hs]
      simp

theorem dd_of_seg (cs : List Char) (hmem : ['.', '.'] ∈ splitSlash cs) :
    ddChars cs = true := by
  induction cs with
  | nil => simp [splitSlash] at hmem
  | cons c cs ih =>
    by_cases hcs : c = '/'
    · subst hcs
      rw [show splitSlash ('/' :: cs) = [] :: splitSlash cs by simp [splitSlash]] at hmem
      rcases List.mem_cons.mp hmem with h1 | h2
      · simp at h1
      · exact ddChars_cons _ _ (ih h2)
    · obtain ⟨h, t, rest, hs, hc⟩ := splitSlash_head cs
      rw [show splitSlash (c :: cs)
            = (c :: (splitSlash cs).headD []) :: (splitSlash cs).tail by
          simp [splitSlash, hcs]] at hmem
      rw [hs] at hmem
      simp only [List.headD_cons, List.tail_cons] at hmem
      rcases List.mem_cons.mp hmem with h1 | h2
      · have hch : c = '.' ∧ h = ['.'] := by
          have := h1.symm
          simp only [List.cons.injEq] at this
          exact ⟨this.1, this.2.symm ▸ rfl⟩
        obtain ⟨rfl, rfl⟩ := hch
        rw [hc]
        show ddChars ('.' :: '.' :: rest) = true
        simp [ddChars]
      · exact ddChars_cons _ _ (ih (hs ▸ List.mem_cons_of_mem _ h2))

theorem containsDD_of_parentSeg (s : String) (h : hasParentSeg s = true) :
    containsDD s = true := by
  unfold hasParentSeg at h
  rw [List.any_eq_true] at h
  obtain ⟨seg, hmem, hbeq⟩ := h
  have hseg : seg = ['.', '.'] := eq_of_beq hbeq
  subst hseg
  exact dd_of_seg _ hmem

theorem normAssemble_abs (trail : Bool) (body : List Char) :
    ∃ r, normAssemble true trail body = '/' :: r := by
  unfold normAssemble
  by_cases hb : body = []
  · subst hb; exact ⟨[], by simp⟩
  · rw [if_neg hb]
    exact ⟨body ++ (if trail then ['/'] else []), by simp⟩

theorem isAbsoluteStr_normalize (p : String) (h : isAbsoluteStr p = true) :
    isAbsoluteStr (normalize p) = true := by
  unfold isAbsoluteStr at h
  cases hd : p.data with
  | nil => rw [hd] at h; simp at h
  | cons c rest =>
    rw [hd] at h
    have hc : c = '/' := by
      by_contra hne
      rw [show (match c :: rest with | '/' :: _ => true | _ => false) = false by
        cases c; simp_all] at h
      exact Bool.false_ne_true h
    subst hc
    show isAbsoluteStr ⟨normalizeChars p.data⟩ = true
    rw [hd]
    unfold normalizeChars
    rw [if_neg (by simp)]
    simp only [List.head?_cons]
    have hbeq : ((some '/' : Option Char) == some '/') = true := by simp
    rw [hbeq]
    obtain ⟨r, hr⟩ := normAssemble_abs ((('/' :: rest).getLast? == some '/'))
      (joinSlash (normSegsFold true (splitSlash ('/' :: rest))))
    rw [hr]
    rfl

theorem validatePath_of_dd (cwd p : String) (h : containsDD (normalize p) = true) :
    validatePath cwd p = .error (.pathSecurityViolation p) := by
  unfold validatePath
  simp [h]

theorem validatePath_abs (cwd p : String) (habs : isAbsoluteStr p = true)
    (hdd : containsDD (normalize p) = false) :
    validatePath cwd p = .ok (normalize p) := by
  have h2 := isAbsoluteStr_normalize p habs
  unfold validatePath
  simp [hdd, h2]

theorem mem_dedupGo (l : List String) : ∀ (acc : List String) (x : String),
    x ∈ dedupGo acc l ↔ x ∈ acc ∨ x ∈ l := by
  induction l with
  | nil => intro acc x; simp [dedupGo]
  | cons p ps ih =>
    intro acc x
    simp only [dedupGo]
    rw [ih]
    by_cases hp : p ∈ acc
    · rw [if_pos hp]
      simp only [List.mem_cons]
      constructor
      · rintro (h | h)
        · exact Or.inl h
        · exact Or.inr (Or.inr h)
      · rintro (h | rfl | h)
        · exact Or.inl h
        · exact Or.inl hp
        · exact Or.inr h
    · rw [if_neg hp]
      simp only [List.mem_append, List.mem_singleton, List.mem_cons]
      tauto

theorem nodup_dedupGo (l : List String) : ∀ acc : List String,
    acc.Nodup → (dedupGo acc l).Nodup := by
  induction l with
  | nil => intro acc h; exact h
  | cons p ps ih =>
    intro acc h
    simp only [dedupGo]
    by_cases hp : p ∈ acc
    · rw [if_pos hp]; exact ih acc h
    · rw [if_neg hp]
      refine ih _ ?_
      rw [List.nodup_append]
      exact ⟨h, List.nodup_singleton p, by
        intro a ha hmem
        rw [List.mem_singleton] at hmem
        exact hp (hmem ▸ ha)⟩

theorem mem_dedup (paths : List String) (x : String) :
    x ∈ dedup paths ↔ x ∈ paths := by
  unfold dedup
  rw [mem_dedupGo]
  simp

theorem nodup_dedup (paths : List String) : (dedup paths).Nodup :=
  nodup_dedupGo _ [] List.nodup_nil

theorem dedup_single (p : String) : dedup [p] = [p] := by
  simp [dedup, dedupGo]

theorem dedup_pair (p q : String) (hpq : p ≠ q) : dedup [p, q] = [p, q] := by
  simp [dedup, dedupGo, Ne.symm hpq]

theorem dedup_triple (p : String) : dedup [p, p, p] = [p] := by
  simp [dedup, dedupGo]

theorem chunkBy_flatten_aux (c : Nat) (hc : 1 ≤ c) :
    ∀ (n : Nat) (l : List String), l.length ≤ n → (chunkBy c l).flatten = l := by
  intro n
  induction n with
  | zero =>
    intro l hl
    have hnil : l = [] := List.eq_nil_of_length_eq_zero (Nat.le_zero.mp hl)
    subst hnil
    rw [chunkBy]
    simp
  | succ n ih =>
    intro l hl
    by_cases hnil : l = []
    · subst hnil; rw [chunkBy]; simp
    · rw [chunkBy, dif_neg (by push_neg; exact ⟨by omega, hnil⟩)]
      rw [List.flatten_cons]
      rw [ih (l.drop c) (by
        simp only [List.length_drop]
        have := List.length_pos.mpr hnil
        omega)]
      exact List.take_append_drop c l

theorem chunkBy_flatten (c : Nat) (hc : 1 ≤ c) (l : List String) :
    (chunkBy c l).flatten = l :=
  chunkBy_flatten_aux c hc l.length l le_rfl

theorem encode_eq_map (w : World) (opts : Options) (paths : List String)
    (hc : 1 ≤ opts.concurrency) :
    encode w opts paths
      = (dedup paths).map (fun p => (p, mkEntry (encodeSingle w opts p))) := by
  unfold encode
  rw [chunkBy_flatten _ hc]

theorem chunkIndex_nonpos (c : Int) (hc : c ≤ 0) : ∀ k, chunkIndex c k ≤ 0 := by
  intro k
  induction k with
  | zero => simp [chunkIndex]
  | succ k ih => show chunkIndex c k + c ≤ 0; omega

theorem validateSize_ok_iff (s L : Nat) (f : Bool) :
    validateSize s L f = .ok () ↔ (s ≤ L ∨ f = true) := by
  unfold validateSize
  cases f <;> by_cases h : s > L <;> simp [h] <;> omega

theorem validateSize_error_iff (s L : Nat) (f : Bool) (e : EncodeError) :
    validateSize s L f = .error e ↔ (f = false ∧ s > L ∧ e = .sizeLimitExceeded s L) := by
  unfold validateSize
  cases f <;> by_cases h : s > L <;> simp [h, eq_comm]

theorem fetchedContentType_ne_empty (h : Option String) :
    fetchedContentType h ≠ "" := by
  cases h with
  | none => simp [fetchedContentType]
  | some s => by_cases hs : s = "" <;> simp [fetchedContentType, hs]

theorem validateSize_ok_not_gate (s L : Nat) (f : Bool)
    (h : validateSize s L f = .ok ()) : ¬(f = false ∧ s > L) := by
  rcases (validateSize_ok_iff s L f).mp h with h1 | h1
  · rintro ⟨-, hgt⟩; omega
  · rintro ⟨hf, -⟩; rw [h1] at hf; simp at hf

/-! ## Claim theorems -/

/-- C2 (amended): every input whose normalized form still contains a
parent-directory `..` segment is rejected by `validatePath` with a
`PathSecurityViolation`, regardless of how many segments or what prefix
precedes it; and an absolute path whose normalized form contains no `..`
substring is never rejected by path validation. -/
theorem path_validation_rules :
    (∀ (cwd p : String), hasParentSeg (normalize p) = true →
       validatePath cwd p = .error (.pathSecurityViolation p)) ∧
    (∀ (cwd p : String), isAbsoluteStr p = true →
       containsDD (normalize p) = false →
       validatePath cwd p = .ok (normalize p)) :=
  ⟨fun cwd p h => validatePath_of_dd cwd p (containsDD_of_parentSeg _ h),
   fun cwd p habs hdd => validatePath_abs cwd p habs hdd⟩

/-- C2 counterexample: `/var/a..b.png` is an absolute path whose normalized
form contains no parent-directory `..` segment, yet `validatePath` rejects it
with a `PathSecurityViolation` (the check is a substring test). -/
theorem path_validation_absolute_counterexample :
    hasParentSeg (normalize "/var/a..b.png") = false ∧
    isAbsoluteStr "/var/a..b.png" = true ∧
    validatePath "/home/user" "/var/a..b.png"
      = .error (.pathSecurityViolation "/var/a..b.png") :=
  ⟨rfl, rfl, rfl⟩

/-- C2 witness: `a/../../x` (a `..` segment survives normalization) is
rejected; `/etc/passwd` (absolute, no `..`) passes path validation. -/
theorem path_validation_rules_witness :
    validatePath "/home/user" "a/../../x"
      = .error (.pathSecurityViolation "a/../../x") ∧
    validatePath "/home/user" "/etc/passwd" = .ok (normalize "/etc/passwd") :=
  ⟨path_validation_rules.1 "/home/user" "a/../../x" rfl,
   path_validation_rules.2 "/home/user" "/etc/passwd" rfl rfl⟩

/-- C10: `validatePath` rejects every input whose normalized form contains the
substring `..` anywhere — not only as a parent-directory segment; in
particular `a..b.png` and `/var/a..b.png`, which contain no traversal
segment at all, are rejected with `PathSecurityViolation`. -/
theorem traversal_substring_overstrict :
    (∀ (cwd p : String), containsDD (normalize p) = true →
       validatePath cwd p = .error (.pathSecurityViolation p)) ∧
    hasParentSeg (normalize "a..b.png") = false ∧
    hasParentSeg (normalize "/var/a..b.png") = false ∧
    validatePath "/srv" "a..b.png" = .error (.pathSecurityViolation "a..b.png") ∧
    validatePath "/srv" "/var/a..b.png"
      = .error (.pathSecurityViolation "/var/a..b.png") :=
  ⟨validatePath_of_dd, rfl, rfl, rfl, rfl⟩

/-- C10 witness: the universal part applied at a concrete traversal input. -/
theorem traversal_substring_overstrict_witness :
    validatePath "/srv" "../secret" = .error (.pathSecurityViolation "../secret") :=
  traversal_substring_overstrict.1 "/srv" "../secret" rfl

/-- C7 (amended: the buffer `"test"` is 4 bytes, not 13): for every byte
buffer and non-empty media type, `toDataUri` returns exactly
`data:<mediaType>;base64,<base64(buffer)>` with the standard padded alphabet,
and encoding the 4-byte UTF-8 buffer `"test"` with media type `text/plain`
yields exactly `data:text/plain;base64,dGVzdA==`. -/
theorem encoder_output :
    (∀ (buffer : List Nat) (mediaType : String), mediaType ≠ "" →
       toDataUri buffer mediaType
         = .ok ("data:" ++ mediaType ++ ";base64," ++ base64Encode buffer)) ∧
    testBuffer.length = 4 ∧
    toDataUri testBuffer "text/plain" = .ok "data:text/plain;base64,dGVzdA==" :=
  ⟨fun _ mediaType h => by unfold toDataUri; rw [if_neg h], rfl, rfl⟩

/-- C7 counterexample: the UTF-8 buffer `"test"` of the spec's scenario has 4
bytes, not 13 — there is no 13-byte buffer whose base64 is the 8-character
`dGVzdA==`. -/
theorem encoder_scenario_counterexample :
    testBuffer.length ≠ 13 ∧
    toDataUri testBuffer "text/plain" = .ok "data:text/plain;base64,dGVzdA==" :=
  ⟨by decide, rfl⟩

/-- C7 witness: the format statement applied at a concrete buffer and media
type. -/
theorem encoder_output_witness :
    toDataUri [1, 2, 3] "image/png"
      = .ok ("data:" ++ "image/png" ++ ";base64," ++ base64Encode [1, 2, 3]) :=
  encoder_output.1 [1, 2, 3] "image/png" (by decide)

/-- C8 (code bug): the batch orchestrator neither rejects nor normalizes a
non-positive `concurrency`.  With one distinct input the loop guard
`i < uniquePaths.length` (that is, `chunkIndex c k < 1`) remains true for
every iteration count `k` whenever `c ≤ 0`, so the chunking loop of `encode`
never exits and `encode` never returns. -/
theorem concurrency_zero_loop_never_exits :
    (dedup ["img.png"]).length = 1 ∧
    ∀ (c : Int), c ≤ 0 → ∀ (k : Nat), chunkIndex c k < 1 :=
  ⟨rfl, fun c hc k => by have := chunkIndex_nonpos c hc k; omega⟩

/-- C8 witness: with `concurrency = 0` the loop index is still below the
bound after five iterations (and, by the theorem, after any number). -/
theorem concurrency_zero_loop_never_exits_witness :
    chunkIndex 0 5 < 1 :=
  concurrency_zero_loop_never_exits.2 0 (by decide) 5

/-- C1: the size gate succeeds iff `s ≤ L` or `force`, its failure carries
both the observed size and the limit, and the identical gate (`validateSize`)
is what decides the local stat size, the remote declared content length (when
known, i.e. `> 0`), and the actual downloaded body length. -/
theorem size_gate_uniform :
    (∀ (s L : Nat) (force : Bool),
       validateSize s L force = .ok () ↔ (s ≤ L ∨ force = true)) ∧
    (∀ (s L : Nat) (force : Bool) (e : EncodeError),
       validateSize s L force = .error e → e = .sizeLimitExceeded s L) ∧
    (∀ (fs : FileSystem) (cwd : String) (opts : Options) (p sp : String),
       validatePath cwd p = .ok sp → fs.fileExists sp = true →
       (encodeLocalFile fs cwd opts p
           = .error (.sizeLimitExceeded (fs.size sp) opts.sizeLimit)
         ↔ (opts.force = false ∧ fs.size sp > opts.sizeLimit))) ∧
    (∀ (env : RemoteEnv) (opts : Options) (url : String) (meta : ProbeMeta),
       env.probe = .ok meta → isImage meta.contentType = true →
       meta.contentLength > 0 →
       opts.force = false → meta.contentLength > opts.sizeLimit →
       encodeRemoteUrlT env opts url
         = (.error (.sizeLimitExceeded meta.contentLength opts.sizeLimit), false)) ∧
    (∀ (env : RemoteEnv) (opts : Options) (url : String) (meta : ProbeMeta)
       (resp : FetchResp),
       env.probe = .ok meta → isImage meta.contentType = true →
       validateSize meta.contentLength opts.sizeLimit opts.force = .ok () →
       env.fetch = .ok resp →
       ((encodeRemoteUrlT env opts url).1
           = .error (.sizeLimitExceeded resp.body.length opts.sizeLimit)
         ↔ (opts.force = false ∧ resp.body.length > opts.sizeLimit))) := by
  refine ⟨fun s L force => validateSize_ok_iff s L force,
          fun s L force e h => ((validateSize_error_iff s L force e).mp h).2.2,
          ?_, ?_, ?_⟩
  · intro fs cwd opts p sp hvp hex
    unfold encodeLocalFile
    rw [hvp]
    dsimp only
    simp only [hex, Bool.not_true, Bool.false_eq_true, if_false]
    cases hv : validateSize (fs.size sp) opts.sizeLimit opts.force with
    | error e =>
      dsimp only
      obtain ⟨hf, hgt, rfl⟩ := (validateSize_error_iff _ _ _ _).mp hv
      simp [hf, hgt]
    | ok u =>
      dsimp only
      have hnot := validateSize_ok_not_gate _ _ _ (by rw [hv])
      cases hm : fs.mime sp with
      | none => dsimp only; simp [hnot]
      | some m =>
        dsimp only
        by_cases hm0 : m = ""
        · simp [hm0, hnot]
        · rw [if_neg hm0]
          unfold toDataUri
          rw [if_neg hm0]
          simp [hnot]
  · intro env opts url meta hprobe himg hlen hforce hgt
    unfold encodeRemoteUrlT
    rw [hprobe]
    dsimp only
    rw [show validateImageContentType meta.contentType url = .ok () from by
      simp [validateImageContentType, himg]]
    dsimp only
    rw [if_pos hlen]
    rw [(validateSize_error_iff _ _ _ _).mpr ⟨hforce, hgt, rfl⟩]
  · intro env opts url meta resp hprobe himg hpre hfetch
    unfold encodeRemoteUrlT
    rw [hprobe]
    dsimp only
    rw [show validateImageContentType meta.contentType url = .ok () from by
      simp [validateImageContentType, himg]]
    dsimp only
    rw [show (if meta.contentLength > 0 then
        validateSize meta.contentLength opts.sizeLimit opts.force
      else .ok ()) = .ok () from by split; exacts [hpre, rfl]]
    dsimp only
    rw [hfetch]
    dsimp only
    cases hv : validateSize resp.body.length opts.sizeLimit opts.force with
    | error e =>
      dsimp only
      obtain ⟨hf, hgt, rfl⟩ := (validateSize_error_iff _ _ _ _).mp hv
      simp [hf, hgt]
    | ok u =>
      dsimp only
      have hnot := validateSize_ok_not_gate _ _ _ (by rw [hv])
      unfold toDataUri
      rw [if_neg (fetchedContentType_ne_empty resp.contentTypeHeader)]
      simp [hnot]

/-- C1 witness: each site of the size gate instantiated concretely — the gate
itself at `100 > 50`, the local pipeline on a 100-byte file with a 50-byte
limit, the remote pipeline on a declared length of 100 with a 50-byte limit,
and the post-fetch gate on a 5-byte body with a 3-byte limit. -/
theorem size_gate_uniform_witness :
    (validateSize 100 50 false = .ok () ↔ (100 ≤ 50 ∨ false = true)) ∧
    ((.sizeLimitExceeded 100 50 : EncodeError) = .sizeLimitExceeded 100 50) ∧
    (encodeLocalFile fsW "/home/user" optsSmall "big.png"
        = .error (.sizeLimitExceeded (fsW.size "big.png") optsSmall.sizeLimit)
      ↔ (optsSmall.force = false ∧ fsW.size "big.png" > optsSmall.sizeLimit)) ∧
    (encodeRemoteUrlT envPre optsSmall "http://example.com/image.png"
        = (.error (.sizeLimitExceeded 100 optsSmall.sizeLimit), false)) ∧
    ((encodeRemoteUrlT envPost optsTiny "http://example.com/image.png").1
        = .error (.sizeLimitExceeded ([1, 2, 3, 4, 5] : List Nat).length
            optsTiny.sizeLimit)
      ↔ (optsTiny.force = false ∧
          ([1, 2, 3, 4, 5] : List Nat).length > optsTiny.sizeLimit)) :=
  ⟨size_gate_uniform.1 100 50 false,
   size_gate_uniform.2.1 100 50 false _ rfl,
   size_gate_uniform.2.2.1 fsW "/home/user" optsSmall "big.png" "big.png" rfl rfl,
   size_gate_uniform.2.2.2.1 envPre optsSmall "http://example.com/image.png"
     ⟨"image/png", 100⟩ rfl rfl (by decide) rfl (by decide),
   size_gate_uniform.2.2.2.2 envPost optsTiny "http://example.com/image.png"
     ⟨"image/png", 0⟩ ⟨some "image/png", [1, 2, 3, 4, 5]⟩ rfl rfl rfl rfl⟩

/-- C5: when the probe's declared content type fails the case-insensitive
`image/` prefix test, `encodeRemoteUrl` fails with `NotAnImage` naming the
declared type and the URL, and the full GET fetch is never issued (the trace
flag is `false`). -/
theorem probe_gate_blocks_fetch (env : RemoteEnv) (opts : Options) (url : String)
    (meta : ProbeMeta) (hprobe : env.probe = .ok meta)
    (himg : isImage meta.contentType = false) :
    encodeRemoteUrlT env opts url = (.error (.notAnImage meta.contentType url), false) := by
  unfold encodeRemoteUrlT
  rw [hprobe]
  simp [validateImageContentType, himg]

/-- C5 witness: a probe declaring `text/html` rejects without fetching. -/
theorem probe_gate_blocks_fetch_witness :
    encodeRemoteUrlT envHtml defaultOptions "http://example.com/page"
      = (.error (.notAnImage "text/html" "http://example.com/page"), false) :=
  probe_gate_blocks_fetch envHtml defaultOptions "http://example.com/page"
    ⟨"text/html", 123⟩ rfl rfl

/-- C6: when the probe omits `content-length` (recorded as 0) the pre-fetch
size gate is skipped, the GET fetch is issued (trace flag `true`), and the
result is a `SizeLimitExceeded` carrying the actual downloaded length iff
that length exceeds the limit and `force` is not set. -/
theorem deferred_remote_size_gate (env : RemoteEnv) (opts : Options) (url : String)
    (meta : ProbeMeta) (resp : FetchResp)
    (hprobe : env.probe = .ok meta) (himg : isImage meta.contentType = true)
    (hlen : meta.contentLength = 0) (hfetch : env.fetch = .ok resp) :
    (encodeRemoteUrlT env opts url).2 = true ∧
    ((encodeRemoteUrlT env opts url).1
        = .error (.sizeLimitExceeded resp.body.length opts.sizeLimit)
      ↔ (opts.force = false ∧ resp.body.length > opts.sizeLimit)) := by
  unfold encodeRemoteUrlT
  rw [hprobe]
  dsimp only
  rw [show validateImageContentType meta.contentType url = .ok () from by
    simp [validateImageContentType, himg]]
  dsimp only
  rw [if_neg (by omega : ¬meta.contentLength > 0)]
  dsimp only
  rw [hfetch]
  dsimp only
  cases hv : validateSize resp.body.length opts.sizeLimit opts.force with
  | error e =>
    dsimp only
    obtain ⟨hf, hgt, rfl⟩ := (validateSize_error_iff _ _ _ _).mp hv
    simp [hf, hgt]
  | ok u =>
    dsimp only
    have hnot := validateSize_ok_not_gate _ _ _ (by rw [hv])
    unfold toDataUri
    rw [if_neg (fetchedContentType_ne_empty resp.contentTypeHeader)]
    simp [hnot]

/-- C6 witness: probe without length, 5-byte body, 3-byte limit — the
rejection carries the actual length and fires only after the fetch. -/
theorem deferred_remote_size_gate_witness :
    (encodeRemoteUrlT envPost optsTiny "http://example.com/i.png").2 = true ∧
    ((encodeRemoteUrlT envPost optsTiny "http://example.com/i.png").1
        = .error (.sizeLimitExceeded ([1, 2, 3, 4, 5] : List Nat).length
            optsTiny.sizeLimit)
      ↔ (optsTiny.force = false ∧
          ([1, 2, 3, 4, 5] : List Nat).length > optsTiny.sizeLimit)) :=
  deferred_remote_size_gate envPost optsTiny "http://example.com/i.png"
    ⟨"image/png", 0⟩ ⟨some "image/png", [1, 2, 3, 4, 5]⟩ rfl rfl rfl rfl

/-- C9: when the probe's declared type passes the `image/*` gate, the size
gates pass, and the GET response carries no `content-type` header, the
pipeline succeeds and the encoded media type is the fallback
`application/octet-stream` — the encoded type comes from the fetch response,
not from the probe's declared type. -/
theorem fetch_content_type_fallback (env : RemoteEnv) (opts : Options) (url : String)
    (meta : ProbeMeta) (resp : FetchResp)
    (hprobe : env.probe = .ok meta) (himg : isImage meta.contentType = true)
    (hpre : validateSize meta.contentLength opts.sizeLimit opts.force = .ok ())
    (hfetch : env.fetch = .ok resp) (hhdr : resp.contentTypeHeader = none)
    (hpost : validateSize resp.body.length opts.sizeLimit opts.force = .ok ()) :
    (encodeRemoteUrlT env opts url).1
      = .ok ("data:application/octet-stream;base64," ++ base64Encode resp.body) := by
  unfold encodeRemoteUrlT
  rw [hprobe]
  dsimp only
  rw [show validateImageContentType meta.contentType url = .ok () from by
    simp [validateImageContentType, himg]]
  dsimp only
  rw [show (if meta.contentLength > 0 then
      validateSize meta.contentLength opts.sizeLimit opts.force
    else .ok ()) = .ok () from by split; exacts [hpre, rfl]]
  dsimp only
  rw [hfetch]
  dsimp only
  rw [hpost]
  dsimp only
  simp [hhdr, fetchedContentType, toDataUri]

/-- C9 witness: probe declares `image/png`, fetch response has no
`content-type`, body `01 02 03` — the result is an
`application/octet-stream` data URI. -/
theorem fetch_content_type_fallback_witness :
    (encodeRemoteUrlT envNoCT defaultOptions "http://example.com/i.png").1
      = .ok ("data:application/octet-stream;base64," ++ base64Encode [1, 2, 3]) :=
  fetch_content_type_fallback envNoCT defaultOptions "http://example.com/i.png"
    ⟨"image/png", 0⟩ ⟨none, [1, 2, 3]⟩ rfl rfl rfl rfl rfl rfl

/-- C3: for every input sequence, `encode` returns one entry per distinct
input string — the keys are exactly the deduplicated inputs (no duplicates,
nothing dropped) — every entry carries exactly one of `data` or `error`, and
`encode [p, p, p]` has size 1. -/
theorem batch_result_shape (w : World) (opts : Options) (paths : List String)
    (hc : 1 ≤ opts.concurrency) :
    ((encode w opts paths).map Prod.fst).Nodup ∧
    (∀ x : String, x ∈ (encode w opts paths).map Prod.fst ↔ x ∈ paths) ∧
    (∀ pr ∈ encode w opts paths,
       (pr.2.data.isSome ∧ pr.2.error = none) ∨
       (pr.2.data = none ∧ pr.2.error.isSome)) ∧
    (∀ p : String, (encode w opts [p, p, p]).length = 1) := by
  have hmap := encode_eq_map w opts paths hc
  have hfst : ((encode w opts paths).map Prod.fst) = dedup paths := by
    rw [hmap, List.map_map]
    exact List.map_id (dedup paths)
  refine ⟨?_, ?_, ?_, ?_⟩
  · rw [hfst]; exact nodup_dedup paths
  · intro x; rw [hfst]; exact mem_dedup paths x
  · intro pr hpr
    rw [hmap] at hpr
    obtain ⟨p, _, rfl⟩ := List.mem_map.mp hpr
    cases h : encodeSingle w opts p <;> simp [mkEntry, h]
  · intro p
    rw [encode_eq_map w opts _ hc, dedup_triple]
    simp

/-- C3 witness: a batch with a duplicated valid input and an invalid input
has nodup keys containing each input, and a fully duplicated batch has
size 1. -/
theorem batch_result_shape_witness :
    ((encode Wc defaultOptions ["ok.png", "ok.png", "missing.png"]).map Prod.fst).Nodup ∧
    ("ok.png" ∈ (encode Wc defaultOptions ["ok.png", "ok.png", "missing.png"]).map Prod.fst
      ↔ "ok.png" ∈ ["ok.png", "ok.png", "missing.png"]) ∧
    (encode Wc defaultOptions ["x.png", "x.png", "x.png"]).length = 1 :=
  ⟨(batch_result_shape Wc defaultOptions ["ok.png", "ok.png", "missing.png"]
      (by decide)).1,
   (batch_result_shape Wc defaultOptions ["ok.png", "ok.png", "missing.png"]
      (by decide)).2.1 "ok.png",
   (batch_result_shape Wc defaultOptions [] (by decide)).2.2.2 "x.png"⟩

/-- C4: in a two-input batch where one input succeeds and the other fails,
`encode` returns both entries — the valid one with data and no error, the
invalid one with an error and no data — and the valid entry is exactly what a
batch without the invalid input produces; no per-input failure escapes the
batch call. -/
theorem isolated_failure (w : World) (opts : Options) (p q : String)
    (d : String) (e : EncodeError) (hc : 1 ≤ opts.concurrency) (hpq : p ≠ q)
    (hp : encodeSingle w opts p = .ok d) (hq : encodeSingle w opts q = .error e) :
    encode w opts [p, q] = [(p, ⟨some d, none⟩), (q, ⟨none, some e⟩)] ∧
    encode w opts [p] = [(p, ⟨some d, none⟩)] := by
  constructor
  · rw [encode_eq_map w opts _ hc, dedup_pair p q hpq]
    simp [mkEntry, hp, hq]
  · rw [encode_eq_map w opts _ hc, dedup_single]
    simp [mkEntry, hp]

/-- C4 witness: `ok.png` encodes to a data URI, `missing.png` fails with
`NotFound`, and the batch of both preserves the valid entry unchanged. -/
theorem isolated_failure_witness :
    encode Wc defaultOptions ["ok.png", "missing.png"]
      = [("ok.png", ⟨some "data:image/png;base64,AQID", none⟩),
         ("missing.png", ⟨none, some (.notFound "missing.png")⟩)] ∧
    encode Wc defaultOptions ["ok.png"]
      = [("ok.png", ⟨some "data:image/png;base64,AQID", none⟩)] :=
  isolated_failure Wc defaultOptions "ok.png" "missing.png"
    "data:image/png;base64,AQID" (.notFound "missing.png")
    (by decide) (by decide) rfl rfl

end Imguri
